import Mathlib

set_option maxRecDepth 8000

/-!
Verification of the two core engines of the littlebrothers-video-gen
repository against its natural-language specification.

* `src/audio_analyzer.py` — the beat-synchronous Segmentation Engine
  (`determine_segment_points`).
* `src/video_editor.py` — the Geometry Planner (`calculate_crop_params`),
  the Segment Extractor's start-offset choice (`process_segment`), and the
  Assembly Pipeline's control flow (`create_edited_video`).

Times, durations and energies are modelled as exact rationals (`ℚ`): every
comparison and every arithmetic step of the relevant Python code is on
values that the claims instantiate at dyadic rationals, where IEEE doubles
are exact, and equality/ordering of copied float values is preserved.
Python's `int(...)` (truncation toward zero) is `Int.tdiv` on
numerator/denominator; Python's floor division `//` is `Int.fdiv`.
-/

/-! ## Segmentation Engine (`src/audio_analyzer.py`, `determine_segment_points`) -/

/-- One segment dictionary as built by `determine_segment_points`
(lines 68-75 and 90-97 of `src/audio_analyzer.py`).  The Python key `"end"`
is a Lean keyword, so the field is spelled `end_`. -/
structure Segment where
  start : ℚ
  end_ : ℚ
  duration : ℚ
  beats : Nat
  segment_number : Nat
  energy_level : ℚ
deriving DecidableEq, Repr

/-- `np.mean` of a list; the code never takes the mean of an empty slice on
the inputs the claims quantify over (Python would return NaN there). -/
def listMean (l : List ℚ) : ℚ := l.sum / l.length

/-- Python slice `l[a:b]` for non-negative bounds (clamping, end-exclusive). -/
def pySlice (l : List ℚ) (a b : Nat) : List ℚ := (l.drop a).take (b - a)

/-- `np.diff`: successive differences. -/
def npDiff (l : List ℚ) : List ℚ := (l.zip l.tail).map fun p => p.2 - p.1

/-- Lines 51-52: `energy_changes = np.abs(np.diff(energy_beats))` padded with
its own last value.  (On an `energy_beats` of length < 2 the Python indexing
`energy_changes[-1]` would raise; the default 0 is never reached by the
claims, which all have at least two beat-aligned energy values.) -/
def energyChangesOf (energy_beats : List ℚ) : List ℚ :=
  let d := (npDiff energy_beats).map (fun x => |x|)
  d ++ [(d.getLast?).getD 0]

/-- Line 43: `min_segment_beats = 1`. -/
def min_segment_beats : Nat := 1

/-- Lines 80-84: the cut decision.  `current_length` is the value *after*
the `current_length += 1` of line 60; `1.5` is exactly `3/2`. -/
def should_segment (ec : List ℚ) (mean_ec : ℚ) (current_length i : Nat) : Bool :=
  (decide (mean_ec * (3 / 2) < ec.getD i 0) && decide (min_segment_beats ≤ current_length)) ||
  decide (16 ≤ current_length) ||
  ((decide (current_length = 4) || decide (current_length = 8)) &&
    decide (mean_ec < ec.getD i 0))

/-- The mutable state of the scan of lines 54-105: `current_start`,
`current_length`, `total_duration` and the accumulated `segments` list. -/
structure SegState where
  current_start : Nat
  current_length : Nat
  total_duration : ℚ
  segments : List Segment
deriving DecidableEq, Repr

/-- The `for i in range(len(beat_times) - 1)` loop of lines 59-105.
`i` is the next loop index and `k` the number of remaining iterations;
the `break` of line 77 is the two non-recursive branches of the first `if`. -/
def segLoop (bt eb ec : List ℚ) (mean_ec audio_duration : ℚ) :
    Nat → Nat → SegState → SegState
  | _, 0, s => s
  | i, k + 1, s =>
    let current_length := s.current_length + 1
    let next_segment_duration := bt.getD (i + 1) 0 - bt.getD s.current_start 0
    if audio_duration < s.total_duration + next_segment_duration then
      let remaining_time := audio_duration - s.total_duration
      if 1 ≤ remaining_time then
        { s with segments := s.segments ++
            [{ start := bt.getD s.current_start 0,
               end_ := bt.getD s.current_start 0 + remaining_time,
               duration := remaining_time,
               beats := current_length,
               segment_number := s.segments.length + 1,
               energy_level := listMean (pySlice eb s.current_start (i + 1)) }] }
      else s
    else
      if should_segment ec mean_ec current_length i then
        segLoop bt eb ec mean_ec audio_duration (i + 1) k
          { current_start := i + 1,
            current_length := 0,
            total_duration := s.total_duration + next_segment_duration,
            segments := s.segments ++
              [{ start := bt.getD s.current_start 0,
                 end_ := bt.getD (i + 1) 0,
                 duration := next_segment_duration,
                 beats := current_length,
                 segment_number := s.segments.length + 1,
                 energy_level := listMean (pySlice eb s.current_start (i + 1)) }] }
      else
        segLoop bt eb ec mean_ec audio_duration (i + 1) k
          { s with current_length := current_length }

/-- `determine_segment_points` (lines 29-113).  The beat-alignment resampling
of lines 46-48 (`librosa.util.sync` over `librosa.time_to_frames`) is an
external signal-processing primitive (spec §1); its output is the
`energy_beats` argument here.  The `average_energy` and `sr` parameters of
the Python function are not used by the scan and are omitted. -/
def determine_segment_points (beat_times energy_beats : List ℚ)
    (audio_duration : ℚ) : List Segment :=
  let ec := energyChangesOf energy_beats
  (segLoop beat_times energy_beats ec (listMean ec) audio_duration 0
    (beat_times.length - 1)
    { current_start := 0, current_length := 0, total_duration := 0,
      segments := [] }).segments

/-- Line 108: the total emitted duration. -/
def sumDur (l : List Segment) : ℚ := (l.map Segment.duration).sum

/-- Contiguity: each segment's `end` is the next segment's `start`. -/
def contiguous (l : List Segment) : Prop :=
  List.Chain' (fun a b => a.end_ = b.start) l

/-- Segment starts strictly increase along the list. -/
def startsMono (l : List Segment) : Prop :=
  List.Chain' (fun a b => a.start < b.start) l

/-! ## Geometry Planner (`src/video_editor.py`, `calculate_crop_params`) -/

/-- Python `int(q)` truncates toward zero: `Int.tdiv` of numerator by
denominator.  Every value this is applied to in `calculate_crop_params` is
non-negative, where truncation agrees with the floor. -/
def py_int (q : ℚ) : ℤ := q.num.tdiv q.den

/-- One step of the ffmpeg `-vf` filter chain built by
`calculate_crop_params`: `scale=w:h`, `crop=w:h:x:y`, or `format=yuv420p`. -/
inductive FilterStep where
  | scale (w h : ℤ)
  | crop (w h x y : ℤ)
  | format
deriving DecidableEq, Repr

/-- Lines 70-83: the intermediate (possibly upscaled) dimensions
`(scale_width, scale_height)`.  Divisions are Python float division,
modelled exactly on `ℚ`; `int(...)` is `py_int`. -/
def scaled_dims (source_width source_height target_width target_height : ℤ) :
    ℤ × ℤ :=
  if source_width < target_width ∨ source_height < target_height then
    let width_scale : ℚ := (target_width : ℚ) / (source_width : ℚ)
    let height_scale : ℚ := (target_height : ℚ) / (source_height : ℚ)
    let scale_factor := max width_scale height_scale
    (py_int ((source_width : ℚ) * scale_factor),
     py_int ((source_height : ℚ) * scale_factor))
  else (source_width, source_height)

/-- `calculate_crop_params` (lines 58-112).  Python `//` on the crop offsets
is floor division, `Int.fdiv`. -/
def calculate_crop_params (source_width source_height target_width target_height : ℤ) :
    List FilterStep :=
  let source_aspect : ℚ := (source_width : ℚ) / (source_height : ℚ)
  let target_aspect : ℚ := (target_width : ℚ) / (target_height : ℚ)
  let scale_width :=
    (scaled_dims source_width source_height target_width target_height).1
  let scale_height :=
    (scaled_dims source_width source_height target_width target_height).2
  if source_aspect > target_aspect then
    let new_width := py_int ((scale_height : ℚ) * target_aspect)
    let crop_x := (scale_width - new_width).fdiv 2
    [.scale scale_width scale_height, .crop new_width scale_height crop_x 0,
     .scale target_width target_height, .format]
  else if source_aspect < target_aspect then
    let new_height := py_int ((scale_width : ℚ) / target_aspect)
    let crop_y := (scale_height - new_height).fdiv 2
    [.scale scale_width scale_height, .crop scale_width new_height 0 crop_y,
     .scale target_width target_height, .format]
  else
    [.scale target_width target_height, .format]

/-! ## Segment Extractor start offset (`src/video_editor.py`, lines 316-320) -/

/-- Line 319: `max_start = max(0, video_duration - segment['duration'])`. -/
def max_start (video_duration duration : ℚ) : ℚ :=
  max 0 (video_duration - duration)

/-- Line 320: `start_time = random.uniform(0, max_start) if max_start > 0
else 0`.  The external uniform sampler is modelled by its returned value
`u`, constrained to `[0, max_start]` where the theorems use it. -/
def start_time (video_duration duration u : ℚ) : ℚ :=
  if 0 < max_start video_duration duration then u else 0

/-! ## Assembly Pipeline control flow (`src/video_editor.py`,
`create_edited_video`, lines 457-537)

The external media engine and the file system are the only effects; they
are modelled by oracle parameters.  `run_ffmpeg_command` (lines 237-300)
returns `False` both on a non-zero exit code (output file possibly left
behind: `leftover`) and on a timeout (output file removed, lines 288-294);
it never raises.  `get_audio_duration` (lines 18-50) raises on probe
failure.  `os.replace` raises if its source file does not exist. -/

/-- Outcome of one external ffmpeg invocation. -/
inductive FfOutcome where
  | ok
  | fail (leftover : Bool)
  | timeout
deriving DecidableEq, Repr

/-- Whether the invocation left an output file behind. -/
def ffWrites : FfOutcome → Bool
  | .ok => true
  | .fail leftover => leftover
  | .timeout => false

/-- What the final output file holds: the video-only concatenation of the
successful clips, the same muxed with the audio track, or the partial file
a failed invocation left behind. -/
inductive Artifact where
  | videoOnly (clips : List Nat)
  | muxed (clips : List Nat)
  | junk
deriving DecidableEq, Repr

/-- Result of a run: `fatal` when an exception escapes
`create_edited_video`, else `completed` with the content of the output
path (`none` when nothing was written there). -/
inductive RunResult where
  | fatal
  | completed (artifact : Option Artifact)
deriving DecidableEq, Repr

/-- Lines 462-469: the per-segment loop.  `process_segment` already
resolves its retries internally (lines 302-368) and never raises, so one
boolean per segment captures its outcome.  Returns the successful segment
indices (`segment_files`, in original order) and the failed ones. -/
def process_segments : List Bool → Nat → List Nat × List Nat
  | [], _ => ([], [])
  | ok :: rest, i =>
    let r := process_segments rest (i + 1)
    if ok then (i :: r.1, r.2) else (r.1, i :: r.2)

/-- Lines 462-537 of `create_edited_video`, after the segment plan and the
source catalog have been read.  Oracles: `segOk` (per-segment extraction
success), `concat_out` (the concat invocation, line 504, return value
ignored by the code), `audio_file` (whether an audio track was supplied),
`probe_ok` (line 511, `get_audio_duration`), `mux_out` (the mux
invocation, line 528, return value ignored by the code).  When the
concatenated file is missing, the mux invocation cannot succeed and is
forced to a plain failure. -/
def create_edited_video (segOk : List Bool) (concat_out : FfOutcome)
    (audio_file : Bool) (probe_ok : Bool) (mux_out : FfOutcome) : RunResult :=
  let r := process_segments segOk 0
  let segment_files := r.1
  let failed_segments := r.2
  if failed_segments ≠ [] ∧ failed_segments.length = segOk.length then
    .fatal
  else
    let temp_video : Option Artifact :=
      match concat_out with
      | .ok => some (.videoOnly segment_files)
      | .fail leftover => if leftover then some .junk else none
      | .timeout => none
    if audio_file then
      if probe_ok then
        let effective_mux := if temp_video.isSome then mux_out else .fail false
        let out : Option Artifact :=
          match effective_mux with
          | .ok =>
            match temp_video with
            | some (.videoOnly c) => some (.muxed c)
            | _ => some .junk
          | .fail leftover => if leftover then some .junk else none
          | .timeout => none
        .completed out
      else
        match temp_video with
        | some a => .completed (some a)
        | none => .fatal
    else
      match temp_video with
      | some a => .completed (some a)
      | none => .fatal

/-! ## Invariants of the segmentation scan -/

theorem segLoop_sumDur_le (bt eb ec : List ℚ) (mean_ec dur : ℚ) :
    ∀ (k i : Nat) (s : SegState), sumDur s.segments = s.total_duration →
      s.total_duration ≤ dur →
      sumDur (segLoop bt eb ec mean_ec dur i k s).segments ≤ dur := by
  intro k
  induction k with
  | zero => intro i s h1 h2; simpa [segLoop, h1] using h2
  | succ k ih =>
    intro i s h1 h2
    simp only [sumDur] at h1
    rw [segLoop]
    by_cases hbrk : dur < s.total_duration + (bt.getD (i + 1) 0 - bt.getD s.current_start 0)
    · rw [if_pos hbrk]
      by_cases hrem : (1 : ℚ) ≤ dur - s.total_duration
      · rw [if_pos hrem]
        simp only [sumDur, List.map_append, List.sum_append, List.map_cons,
          List.map_nil, List.sum_cons, List.sum_nil, add_zero]
        rw [h1]
        linarith
      · rw [if_neg hrem]
        simp only [sumDur]
        rw [h1]; exact h2
    · rw [if_neg hbrk]
      by_cases hcut : should_segment ec mean_ec (s.current_length + 1) i
      · rw [if_pos hcut]
        apply ih
        · simp only [sumDur, List.map_append, List.sum_append, List.map_cons,
            List.map_nil, List.sum_cons, List.sum_nil, add_zero]
          rw [h1]
        · simpa using le_of_not_lt hbrk
      · rw [if_neg hcut]
        apply ih
        · simpa [sumDur] using h1
        · exact h2

theorem segLoop_beats_bounds (bt eb ec : List ℚ) (mean_ec dur : ℚ) :
    ∀ (k i : Nat) (s : SegState), s.current_length ≤ 15 →
      (∀ g ∈ s.segments, 1 ≤ g.beats ∧ g.beats ≤ 16) →
      ∀ g ∈ (segLoop bt eb ec mean_ec dur i k s).segments,
        1 ≤ g.beats ∧ g.beats ≤ 16 := by
  intro k
  induction k with
  | zero => intro i s _ hsegs; simpa [segLoop] using hsegs
  | succ k ih =>
    intro i s hcl hsegs
    rw [segLoop]
    by_cases hbrk : dur < s.total_duration + (bt.getD (i + 1) 0 - bt.getD s.current_start 0)
    · rw [if_pos hbrk]
      by_cases hrem : (1 : ℚ) ≤ dur - s.total_duration
      · rw [if_pos hrem]
        intro g hg
        rcases List.mem_append.1 hg with h | h
        · exact hsegs g h
        · simp only [List.mem_singleton] at h
          subst h
          dsimp only
          omega
      · rw [if_neg hrem]; exact hsegs
    · rw [if_neg hbrk]
      by_cases hcut : should_segment ec mean_ec (s.current_length + 1) i
      · rw [if_pos hcut]
        apply ih
        · simp
        · intro g hg
          rcases List.mem_append.1 hg with h | h
          · exact hsegs g h
          · simp only [List.mem_singleton] at h
            subst h
            dsimp only
            omega
      · rw [if_neg hcut]
        apply ih
        · simp only [should_segment, Bool.or_eq_true, Bool.and_eq_true,
            decide_eq_true_eq, not_or, not_and] at hcut
          push_neg at hcut
          dsimp only
          omega
        · exact hsegs

theorem chain'_append_singleton {r : Segment → Segment → Prop} {l : List Segment}
    {a : Segment} (h : List.Chain' r l)
    (h2 : ∀ b, l.getLast? = some b → r b a) : List.Chain' r (l ++ [a]) := by
  rw [List.chain'_append]
  refine ⟨h, List.chain'_singleton a, fun x hx y hy => ?_⟩
  simp only [List.head?_cons, Option.mem_def, Option.some.injEq] at hy
  subst hy
  exact h2 x hx

theorem getD_lt_getD {bt : List ℚ} (hbt : List.Pairwise (· < ·) bt) {j k : Nat}
    (hjk : j < k) (hk : k < bt.length) : bt.getD j 0 < bt.getD k 0 := by
  rw [List.getD_eq_getElem _ _ (lt_trans hjk hk), List.getD_eq_getElem _ _ hk]
  exact List.pairwise_iff_getElem.1 hbt j k _ _ hjk

theorem segLoop_chain (bt eb ec : List ℚ) (mean_ec dur : ℚ)
    (hbt : List.Pairwise (· < ·) bt) :
    ∀ (k i : Nat) (s : SegState), i + k + 1 ≤ bt.length →
      s.current_start ≤ i →
      (∀ g, s.segments.getLast? = some g →
        g.end_ = bt.getD s.current_start 0 ∧ g.start < bt.getD s.current_start 0) →
      contiguous s.segments → startsMono s.segments →
      contiguous (segLoop bt eb ec mean_ec dur i k s).segments ∧
        startsMono (segLoop bt eb ec mean_ec dur i k s).segments := by
  intro k
  induction k with
  | zero => intro i s _ _ _ hc hm; rw [segLoop]; exact ⟨hc, hm⟩
  | succ k ih =>
    intro i s hlen hcs hlast hc hm
    rw [segLoop]
    by_cases hbrk : dur < s.total_duration + (bt.getD (i + 1) 0 - bt.getD s.current_start 0)
    · rw [if_pos hbrk]
      by_cases hrem : (1 : ℚ) ≤ dur - s.total_duration
      · rw [if_pos hrem]
        constructor
        · exact chain'_append_singleton hc fun b hb => (hlast b hb).1
        · exact chain'_append_singleton hm fun b hb => (hlast b hb).2
      · rw [if_neg hrem]; exact ⟨hc, hm⟩
    · rw [if_neg hbrk]
      by_cases hcut : should_segment ec mean_ec (s.current_length + 1) i
      · rw [if_pos hcut]
        refine ih (i + 1) _ (by omega) (by dsimp only; omega) ?_ ?_ ?_
        · intro g hg
          dsimp only at hg ⊢
          rw [List.getLast?_concat] at hg
          cases hg
          exact ⟨rfl, getD_lt_getD hbt (Nat.lt_succ_of_le hcs) (by omega)⟩
        · exact chain'_append_singleton hc fun b hb => (hlast b hb).1
        · exact chain'_append_singleton hm fun b hb => (hlast b hb).2
      · rw [if_neg hcut]
        refine ih (i + 1) _ (by omega) (by dsimp only; omega) ?_ hc hm
        exact hlast

theorem segLoop_starts (bt eb ec : List ℚ) (mean_ec dur : ℚ) :
    ∀ (k i : Nat) (s : SegState), i + k + 1 ≤ bt.length →
      s.current_start ≤ i →
      (s.segments = [] → s.current_start = 0) →
      (∀ g ∈ s.segments, ∃ j, j < bt.length ∧ g.start = bt.getD j 0) →
      (∀ g, s.segments.head? = some g → g.start = bt.getD 0 0) →
      (∀ g ∈ (segLoop bt eb ec mean_ec dur i k s).segments,
          ∃ j, j < bt.length ∧ g.start = bt.getD j 0) ∧
        (∀ g, (segLoop bt eb ec mean_ec dur i k s).segments.head? = some g →
          g.start = bt.getD 0 0) := by
  intro k
  induction k with
  | zero => intro i s _ _ _ hmem hhead; rw [segLoop]; exact ⟨hmem, hhead⟩
  | succ k ih =>
    intro i s hlen hcs hemp hmem hhead
    rw [segLoop]
    by_cases hbrk : dur < s.total_duration + (bt.getD (i + 1) 0 - bt.getD s.current_start 0)
    · rw [if_pos hbrk]
      by_cases hrem : (1 : ℚ) ≤ dur - s.total_duration
      · rw [if_pos hrem]
        refine ⟨?_, ?_⟩
        · intro g hg
          dsimp only at hg
          rcases List.mem_append.1 hg with h | h
          · exact hmem g h
          · simp only [List.mem_singleton] at h
            subst h
            exact ⟨s.current_start, by omega, rfl⟩
        intro g hg
        dsimp only at hg
        cases hs : s.segments with
        | nil =>
          rw [hs] at hg
          simp only [List.nil_append, List.head?_cons, Option.some.injEq] at hg
          subst hg
          dsimp only
          rw [hemp hs]
        | cons a t =>
          rw [hs] at hg
          simp only [List.cons_append, List.head?_cons, Option.some.injEq] at hg
          subst hg
          exact hhead _ (by rw [hs]; rfl)
      · rw [if_neg hrem]; exact ⟨hmem, hhead⟩
    · rw [if_neg hbrk]
      by_cases hcut : should_segment ec mean_ec (s.current_length + 1) i
      · rw [if_pos hcut]
        refine ih (i + 1) _ (by omega) (by dsimp only; omega) (by dsimp only; simp) ?_ ?_
        · intro g hg
          dsimp only at hg
          rcases List.mem_append.1 hg with h | h
          · exact hmem g h
          · simp only [List.mem_singleton] at h
            subst h
            exact ⟨s.current_start, by omega, rfl⟩
        · intro g hg
          dsimp only at hg
          cases hs : s.segments with
          | nil =>
            rw [hs] at hg
            simp only [List.nil_append, List.head?_cons, Option.some.injEq] at hg
            subst hg
            dsimp only
            rw [hemp hs]
          | cons a t =>
            rw [hs] at hg
            simp only [List.cons_append, List.head?_cons, Option.some.injEq] at hg
            subst hg
            exact hhead _ (by rw [hs]; rfl)
      · rw [if_neg hcut]
        exact ih (i + 1) _ (by omega) (by dsimp only; omega) hemp hmem hhead

/-! ## Claims about the Segmentation Engine -/

/-- Concrete inputs for the end-to-end scenario of claim C4: 60 evenly
spaced beats 0.5s apart starting at 0 (120 BPM), and a flat beat-aligned
energy curve (one value per sync slice boundary segment, 61 entries). -/
def bt60 : List ℚ := (List.range 60).map (fun k => (k : ℚ) / 2)

/-- Flat beat-aligned energy for the C4 scenario. -/
def eb61 : List ℚ := List.replicate 61 (1 / 2 : ℚ)

/-- Beats for witness inputs: 17 beats one second apart. -/
def bt17 : List ℚ := (List.range 17).map (fun k => (k : ℚ))

/-- Flat beat-aligned energy for the witness inputs. -/
def eb18 : List ℚ := List.replicate 18 (1 / 2 : ℚ)

/-- Claim C1, counterexample: a valid non-degenerate input (positive audio
duration, two strictly increasing beats, non-empty energy curve) on which
`determine_segment_points` emits no segment at all, so the total emitted
duration 0 misses the 30s audio duration by far more than the claimed 0.1s
tolerance. -/
theorem C1_counterexample :
    (0 : ℚ) < 30 ∧ List.Pairwise (· < ·) [(0 : ℚ), 1 / 2] ∧
      (2 : Nat) ≤ [(0 : ℚ), 1 / 2].length ∧
      List.replicate 3 (1 / 2 : ℚ) ≠ [] ∧
      determine_segment_points [(0 : ℚ), 1 / 2] (List.replicate 3 (1 / 2 : ℚ)) 30 = [] ∧
      ¬ |sumDur (determine_segment_points [(0 : ℚ), 1 / 2]
          (List.replicate 3 (1 / 2 : ℚ)) 30) - 30| ≤ 1 / 10 := by
  refine ⟨by norm_num, ?_, ?_, ?_, ?_, ?_⟩ <;> with_unfolding_all decide

/-- Claim C1, amended: the sum of `duration` over the emitted segments
never exceeds the audio duration, but it may fall short of it by more than
0.1s (the code only prints a warning for the deviation, lines 108-111). -/
theorem C1_sum_duration_le_audio_duration (beat_times energy_beats : List ℚ)
    (audio_duration : ℚ) (hdur : 0 ≤ audio_duration) :
    sumDur (determine_segment_points beat_times energy_beats audio_duration) ≤
      audio_duration := by
  unfold determine_segment_points
  exact segLoop_sumDur_le _ _ _ _ _ _ _ _ rfl hdur

/-- Witness for C1's amended theorem at a concrete input. -/
theorem C1_sum_duration_le_audio_duration_witness :
    sumDur (determine_segment_points bt17 eb18 100) ≤ 100 :=
  C1_sum_duration_le_audio_duration bt17 eb18 100 (by norm_num)

/-- Claim C2: for a strictly increasing beat grid (the form accepted by the
Segmentation Engine) and any energy curve, the emitted segments are
contiguous (`segments[i].end == segments[i+1].start`) and their starts
strictly increase. -/
theorem C2_segments_contiguous_ordered (beat_times energy_beats : List ℚ)
    (audio_duration : ℚ) (hbt : List.Pairwise (· < ·) beat_times) :
    contiguous (determine_segment_points beat_times energy_beats audio_duration) ∧
      startsMono (determine_segment_points beat_times energy_beats audio_duration) := by
  unfold determine_segment_points
  rcases Nat.eq_zero_or_pos beat_times.length with h0 | hpos
  · rw [h0]
    exact ⟨List.chain'_nil, List.chain'_nil⟩
  · refine segLoop_chain _ _ _ _ _ hbt _ 0 _ (by omega) (Nat.le_refl 0) ?_
      List.chain'_nil List.chain'_nil
    intro g hg
    cases hg

/-- Witness for C2 at a concrete input. -/
theorem C2_segments_contiguous_ordered_witness :
    contiguous (determine_segment_points bt17 eb18 100) ∧
      startsMono (determine_segment_points bt17 eb18 100) :=
  C2_segments_contiguous_ordered bt17 eb18 100 (by with_unfolding_all decide)

/-- Claim C3: every emitted segment, the final truncated one included, has
a `beats` count between 1 and 16. -/
theorem C3_beats_between_one_and_sixteen (beat_times energy_beats : List ℚ)
    (audio_duration : ℚ) :
    ∀ g ∈ determine_segment_points beat_times energy_beats audio_duration,
      1 ≤ g.beats ∧ g.beats ≤ 16 := by
  unfold determine_segment_points
  refine segLoop_beats_bounds _ _ _ _ _ _ _ _ (Nat.zero_le _) ?_
  intro g hg
  cases hg

/-- Witness for C3 on a concretely computed segment. -/
theorem C3_beats_between_one_and_sixteen_witness :
    1 ≤ (⟨0, 16, 16, 16, 1, 1 / 2⟩ : Segment).beats ∧
      (⟨0, 16, 16, 16, 1, 1 / 2⟩ : Segment).beats ≤ 16 :=
  C3_beats_between_one_and_sixteen bt17 eb18 100 _ (by with_unfolding_all decide)

/-- Claim C4, counterexample: on exactly the scenario of the claim (30.0s
audio, 60 beats 0.5s apart from 0, flat energy curve) the engine emits 3
segments totalling 24.0s — not 4 full-cap segments plus a remainder with
total within 0.1s of 30.0s.  After the third cut at 24.0s only 11 of the
remaining beat intervals exist (up to the last beat at 29.5s), so neither
the 16-beat cap nor the duration break ever fires again. -/
theorem C4_counterexample :
    (determine_segment_points bt60 eb61 30).length = 3 ∧
      sumDur (determine_segment_points bt60 eb61 30) = 24 ∧
      ¬ |sumDur (determine_segment_points bt60 eb61 30) - 30| ≤ 1 / 10 := by
  refine ⟨?_, ?_, ?_⟩ <;> with_unfolding_all decide

/-- Claim C4, amended: on that scenario the engine emits exactly three
full-cap segments of 8.0s (16 beats × 0.5s) each, covering [0, 24); the
final 6.0s of audio (the last 11 beat intervals plus the tail after the
last beat) are not covered by any segment. -/
theorem C4_three_full_cap_segments :
    determine_segment_points bt60 eb61 30 =
      [⟨0, 8, 8, 16, 1, 1 / 2⟩, ⟨8, 16, 8, 16, 2, 1 / 2⟩,
       ⟨16, 24, 8, 16, 3, 1 / 2⟩] := by
  with_unfolding_all decide

/-- Claim C10: every emitted segment starts exactly at one of the input
beat timestamps, and the first emitted segment starts at `beat_times[0]`
(audio before the first beat is never covered). -/
theorem C10_segments_start_on_beats (beat_times energy_beats : List ℚ)
    (audio_duration : ℚ) :
    (∀ g ∈ determine_segment_points beat_times energy_beats audio_duration,
        g.start ∈ beat_times) ∧
      ∀ g, (determine_segment_points beat_times energy_beats audio_duration).head? =
          some g → g.start = beat_times.getD 0 0 := by
  unfold determine_segment_points
  rcases Nat.eq_zero_or_pos beat_times.length with h0 | hpos
  · rw [h0]
    exact ⟨fun g hg => absurd hg (by simp [segLoop]), fun g hg => by cases hg⟩
  · obtain ⟨hmem, hhead⟩ :=
      segLoop_starts beat_times energy_beats (energyChangesOf energy_beats)
        (listMean (energyChangesOf energy_beats)) audio_duration
        (beat_times.length - 1) 0
        { current_start := 0, current_length := 0, total_duration := 0, segments := [] }
        (by omega) (Nat.le_refl 0) (fun _ => rfl) (fun g hg => by cases hg)
        (fun g hg => by cases hg)
    refine ⟨?_, hhead⟩
    intro g hg
    obtain ⟨j, hj, hstart⟩ := hmem g hg
    rw [hstart, List.getD_eq_getElem _ _ hj]
    exact List.getElem_mem hj

/-- Witness for C10: the concretely computed first segment of a run starts
at the first beat. -/
theorem C10_segments_start_on_beats_witness :
    (⟨0, 16, 16, 16, 1, 1 / 2⟩ : Segment).start = bt17.getD 0 0 :=
  (C10_segments_start_on_beats bt17 eb18 100).2 _ (by with_unfolding_all decide)

/-! ## Claims about the Geometry Planner -/

/-- For a non-negative rational, Python truncation agrees with the floor. -/
theorem py_int_eq_floor {q : ℚ} (hq : 0 ≤ q) : py_int q = ⌊q⌋ := by
  rw [py_int, Rat.floor_def]
  exact Int.tdiv_eq_ediv (Rat.num_nonneg.2 hq) (Int.natCast_nonneg _)

/-- Claim C7: when source and target aspect ratios are equal, the filter
chain contains no crop step: only the scale to the exact target resolution
followed by the pixel-format normalization. -/
theorem C7_equal_aspects_no_crop (source_width source_height target_width target_height : ℤ)
    (hsw : 0 < source_width) (hsh : 0 < source_height)
    (htw : 0 < target_width) (hth : 0 < target_height)
    (hasp : (source_width : ℚ) / (source_height : ℚ) =
      (target_width : ℚ) / (target_height : ℚ)) :
    calculate_crop_params source_width source_height target_width target_height =
      [.scale target_width target_height, .format] := by
  unfold calculate_crop_params
  rw [if_neg (by rw [hasp]; exact lt_irrefl _), if_neg (by rw [hasp]; exact lt_irrefl _)]

/-- Witness for C7 at the spec's example resolutions. -/
theorem C7_equal_aspects_no_crop_witness :
    calculate_crop_params 1280 720 1920 1080 = [.scale 1920 1080, .format] :=
  C7_equal_aspects_no_crop 1280 720 1920 1080 (by norm_num) (by norm_num)
    (by norm_num) (by norm_num) (by norm_num)

/-- The intermediate dimensions are floors of the source dimensions scaled
by one common positive factor (1 when no upscale happens). -/
theorem scaled_dims_eq (sw sh tw th : ℤ) (hsw : 0 < sw) (hsh : 0 < sh)
    (htw : 0 < tw) (hth : 0 < th) :
    ∃ c : ℚ, 0 < c ∧
      (scaled_dims sw sh tw th).1 = ⌊(sw : ℚ) * c⌋ ∧
      (scaled_dims sw sh tw th).2 = ⌊(sh : ℚ) * c⌋ := by
  unfold scaled_dims
  by_cases hcond : sw < tw ∨ sh < th
  · rw [if_pos hcond]
    have hswQ : (0 : ℚ) < (sw : ℚ) := by exact_mod_cast hsw
    have hshQ : (0 : ℚ) < (sh : ℚ) := by exact_mod_cast hsh
    have htwQ : (0 : ℚ) < (tw : ℚ) := by exact_mod_cast htw
    have hc : (0 : ℚ) < max ((tw : ℚ) / sw) ((th : ℚ) / sh) :=
      lt_of_lt_of_le (div_pos htwQ hswQ) (le_max_left _ _)
    refine ⟨max ((tw : ℚ) / sw) ((th : ℚ) / sh), hc, ?_, ?_⟩
    · exact py_int_eq_floor (mul_nonneg (le_of_lt hswQ) (le_of_lt hc))
    · exact py_int_eq_floor (mul_nonneg (le_of_lt hshQ) (le_of_lt hc))
  · rw [if_neg hcond]
    refine ⟨1, one_pos, ?_, ?_⟩ <;> simp

/-- Truncated product of a floored scaled dimension with a non-negative
aspect stays below the floor of the strict bound. -/
theorem floor_scaled_mul_le {A B t : ℚ} (hB : 0 ≤ B) (ht : 0 ≤ t)
    (h : B * t < A) : py_int ((⌊B⌋ : ℚ) * t) ≤ ⌊A⌋ := by
  have h0 : (0 : ℚ) ≤ (⌊B⌋ : ℚ) * t :=
    mul_nonneg (by exact_mod_cast Int.floor_nonneg.2 hB) ht
  rw [py_int_eq_floor h0]
  exact Int.floor_le_floor
    (le_of_lt (lt_of_le_of_lt (mul_le_mul_of_nonneg_right (Int.floor_le B) ht) h))

/-- Truncated quotient of a floored scaled dimension by a positive aspect
stays below the floor of the strict bound. -/
theorem floor_scaled_div_le {A B t : ℚ} (hA : 0 ≤ A) (ht : 0 < t)
    (h : A / t < B) : py_int ((⌊A⌋ : ℚ) / t) ≤ ⌊B⌋ := by
  have h0 : (0 : ℚ) ≤ (⌊A⌋ : ℚ) / t :=
    div_nonneg (by exact_mod_cast Int.floor_nonneg.2 hA) (le_of_lt ht)
  rw [py_int_eq_floor h0]
  refine Int.floor_le_floor (le_of_lt (lt_of_le_of_lt ?_ h))
  exact (div_le_div_iff_of_pos_right ht).2 (Int.floor_le A)

/-- Claim C8: for positive source and target resolutions, any crop step in
the produced filter chain stays within the intermediate scaled frame: crop
width/height never exceed the scaled width/height, the offsets are the
symmetric floor-halved differences, are non-negative, and offset + crop
dimension never reaches past the scaled frame. -/
theorem C8_crop_within_scaled_frame (source_width source_height target_width target_height : ℤ)
    (hsw : 0 < source_width) (hsh : 0 < source_height)
    (htw : 0 < target_width) (hth : 0 < target_height) :
    ∀ cw ch cx cy, FilterStep.crop cw ch cx cy ∈
        calculate_crop_params source_width source_height target_width target_height →
      ∃ SW SH,
        (calculate_crop_params source_width source_height target_width target_height).head? =
          some (.scale SW SH) ∧
        cw ≤ SW ∧ ch ≤ SH ∧ cx = (SW - cw).fdiv 2 ∧ cy = (SH - ch).fdiv 2 ∧
        0 ≤ cx ∧ 0 ≤ cy ∧ cx + cw ≤ SW ∧ cy + ch ≤ SH := by
  intro cw ch cx cy hmem
  obtain ⟨c, hc, h1, h2⟩ := scaled_dims_eq _ _ _ _ hsw hsh htw hth
  have hswQ : (0 : ℚ) < (source_width : ℚ) := by exact_mod_cast hsw
  have hshQ : (0 : ℚ) < (source_height : ℚ) := by exact_mod_cast hsh
  have htwQ : (0 : ℚ) < (target_width : ℚ) := by exact_mod_cast htw
  have hthQ : (0 : ℚ) < (target_height : ℚ) := by exact_mod_cast hth
  have htaQ : (0 : ℚ) < (target_width : ℚ) / (target_height : ℚ) := div_pos htwQ hthQ
  simp only [calculate_crop_params] at hmem ⊢
  by_cases hgt : (target_width : ℚ) / (target_height : ℚ) <
      (source_width : ℚ) / (source_height : ℚ)
  · rw [if_pos hgt] at hmem ⊢
    simp only [List.mem_cons, List.not_mem_nil, or_false] at hmem
    rcases hmem with h | h | h | h
    · exact absurd h (by simp)
    · rw [FilterStep.crop.injEq] at h
      obtain ⟨e1, e2, e3, e4⟩ := h
      subst e1; subst e2; subst e3; subst e4
      have key : (target_width : ℚ) / (target_height : ℚ) * (source_height : ℚ) <
          (source_width : ℚ) := (lt_div_iff₀ hshQ).1 hgt
      have hBA : ((source_height : ℚ) * c) * ((target_width : ℚ) / (target_height : ℚ)) <
          (source_width : ℚ) * c := by
        calc ((source_height : ℚ) * c) * ((target_width : ℚ) / (target_height : ℚ))
            = ((target_width : ℚ) / (target_height : ℚ) * (source_height : ℚ)) * c := by ring
          _ < (source_width : ℚ) * c := mul_lt_mul_of_pos_right key hc
      have hcw : py_int ((((scaled_dims source_width source_height target_width target_height).2 : ℤ) : ℚ) *
            ((target_width : ℚ) / (target_height : ℚ))) ≤
          (scaled_dims source_width source_height target_width target_height).1 := by
        rw [h1, h2]
        exact floor_scaled_mul_le (by positivity) (le_of_lt htaQ) hBA
      refine ⟨_, _, rfl, hcw, le_refl _, rfl, ?_, ?_, le_refl 0, ?_, by omega⟩
      · rw [sub_self, Int.zero_fdiv]
      · exact Int.fdiv_nonneg (sub_nonneg.2 hcw) (by norm_num)
      · rw [Int.fdiv_eq_ediv _ (by norm_num)]
        omega
    · exact absurd h (by simp)
    · exact absurd h (by simp)
  · rw [if_neg hgt] at hmem ⊢
    by_cases hlt : (source_width : ℚ) / (source_height : ℚ) <
        (target_width : ℚ) / (target_height : ℚ)
    · rw [if_pos hlt] at hmem ⊢
      simp only [List.mem_cons, List.not_mem_nil, or_false] at hmem
      rcases hmem with h | h | h | h
      · exact absurd h (by simp)
      · rw [FilterStep.crop.injEq] at h
        obtain ⟨e1, e2, e3, e4⟩ := h
        subst e1; subst e2; subst e3; subst e4
        have key : (source_width : ℚ) < (target_width : ℚ) / (target_height : ℚ) *
            (source_height : ℚ) := (div_lt_iff₀ hshQ).1 hlt
        have hdiv : (source_width : ℚ) / ((target_width : ℚ) / (target_height : ℚ)) <
            (source_height : ℚ) := by
          rw [div_lt_iff₀ htaQ]
          calc (source_width : ℚ) < (target_width : ℚ) / (target_height : ℚ) *
              (source_height : ℚ) := key
            _ = (source_height : ℚ) * ((target_width : ℚ) / (target_height : ℚ)) := by ring
        have hBA : ((source_width : ℚ) * c) / ((target_width : ℚ) / (target_height : ℚ)) <
            (source_height : ℚ) * c := by
          calc ((source_width : ℚ) * c) / ((target_width : ℚ) / (target_height : ℚ))
              = ((source_width : ℚ) / ((target_width : ℚ) / (target_height : ℚ))) * c := by
                ring
            _ < (source_height : ℚ) * c := mul_lt_mul_of_pos_right hdiv hc
        have hch : py_int ((((scaled_dims source_width source_height target_width target_height).1 : ℤ) : ℚ) /
              ((target_width : ℚ) / (target_height : ℚ))) ≤
            (scaled_dims source_width source_height target_width target_height).2 := by
          rw [h1, h2]
          exact floor_scaled_div_le (by positivity) htaQ hBA
        refine ⟨_, _, rfl, le_refl _, hch, ?_, rfl, le_refl 0, ?_, by omega, ?_⟩
        · rw [sub_self, Int.zero_fdiv]
        · exact Int.fdiv_nonneg (sub_nonneg.2 hch) (by norm_num)
        · rw [Int.fdiv_eq_ediv _ (by norm_num)]
          omega
      · exact absurd h (by simp)
      · exact absurd h (by simp)
    · rw [if_neg hlt] at hmem
      simp at hmem

/-- Witness for C8 at the spec's portrait-target example. -/
theorem C8_crop_within_scaled_frame_witness :
    ∃ SW SH, (calculate_crop_params 1920 1080 1080 1920).head? =
        some (.scale SW SH) ∧
      (1080 : ℤ) ≤ SW ∧ (1920 : ℤ) ≤ SH ∧
      (1166 : ℤ) = (SW - 1080).fdiv 2 ∧ (0 : ℤ) = (SH - 1920).fdiv 2 ∧
      (0 : ℤ) ≤ 1166 ∧ (0 : ℤ) ≤ 0 ∧
      (1166 : ℤ) + 1080 ≤ SW ∧ (0 : ℤ) + 1920 ≤ SH :=
  C8_crop_within_scaled_frame 1920 1080 1080 1920 (by norm_num) (by norm_num)
    (by norm_num) (by norm_num) 1080 1920 1166 0 (by with_unfolding_all decide)

/-! ## Claim about the Segment Extractor -/

/-- Claim C9: when the chosen source is no longer than the requested
segment, the start offset is exactly 0; otherwise the offset (the value `u`
returned by the uniform sampler on `[0, max_start]`) lies in
`[0, video_duration - duration]`. -/
theorem C9_start_offset_range (video_duration duration u : ℚ)
    (hu0 : 0 ≤ u) (hu1 : u ≤ max_start video_duration duration) :
    (video_duration ≤ duration → start_time video_duration duration u = 0) ∧
      (duration < video_duration →
        0 ≤ start_time video_duration duration u ∧
          start_time video_duration duration u ≤ video_duration - duration) := by
  constructor
  · intro hle
    rw [start_time, if_neg]
    have hms : max_start video_duration duration = 0 := by
      rw [max_start]; exact max_eq_left (by linarith)
    rw [hms]
    exact lt_irrefl 0
  · intro hlt
    have hms : max_start video_duration duration = video_duration - duration := by
      rw [max_start]; exact max_eq_right (by linarith)
    rw [start_time, if_pos]
    · refine ⟨hu0, ?_⟩
      rw [hms] at hu1
      exact hu1
    · rw [hms]; linarith

/-- Witness for C9 at a concrete source/segment/draw. -/
theorem C9_start_offset_range_witness :
    0 ≤ start_time 10 4 3 ∧ start_time 10 4 3 ≤ 10 - 4 :=
  (C9_start_offset_range 10 4 3 (by norm_num)
    (by with_unfolding_all decide)).2 (by norm_num)

/-! ## Claims about the Assembly Pipeline -/

/-- Claim C5, counterexample: audio supplied, concatenation succeeded, the
audio probe succeeded, and the mux invocation failed (non-zero exit, no
file left).  The run does not fail, but no fallback happens either: the
video-only stream is not emitted — nothing is written to the output path. -/
theorem C5_counterexample :
    create_edited_video [true] .ok true true (.fail false) = .completed none ∧
      (RunResult.completed none ≠
        .completed (some (.videoOnly (process_segments [true] 0).1))) := by
  exact ⟨by decide, by decide⟩

/-- Claim C5, amended: only an exception (in practice: a probe failure)
triggers the video-only fallback; a mux invocation failure or timeout is
reported by a return value the code ignores, so the run completes without
failing but also without emitting the fallback artifact. -/
theorem C5_probe_fallback_mux_no_fallback (segOk : List Bool) (mux_out : FfOutcome)
    (h : ¬((process_segments segOk 0).2 ≠ [] ∧
      (process_segments segOk 0).2.length = segOk.length)) :
    create_edited_video segOk .ok true false mux_out =
        .completed (some (.videoOnly (process_segments segOk 0).1)) ∧
      create_edited_video segOk .ok true true mux_out ≠ .fatal := by
  constructor
  · unfold create_edited_video
    rw [if_neg h]
    rfl
  · unfold create_edited_video
    rw [if_neg h]
    exact fun hcon => RunResult.noConfusion hcon

/-- Witness for C5's amended theorem at a concrete run. -/
theorem C5_probe_fallback_mux_no_fallback_witness :
    create_edited_video [true] .ok true false .timeout =
        .completed (some (.videoOnly (process_segments [true] 0).1)) ∧
      create_edited_video [true] .ok true true .timeout ≠ .fatal :=
  C5_probe_fallback_mux_no_fallback [true] .timeout (by decide)

/-- The per-segment loop processes every planned segment: successes and
failures partition the plan (no failure aborts the siblings). -/
theorem process_segments_length (l : List Bool) :
    ∀ i, (process_segments l i).1.length + (process_segments l i).2.length =
      l.length := by
  induction l with
  | nil => intro i; rfl
  | cons b t ih =>
    intro i
    by_cases hb : b <;>
      simp only [process_segments, hb, if_true, if_false, List.length_cons,
        Bool.false_eq_true] <;>
      rw [← ih (i + 1)] <;> omega

/-- Claim C6, counterexample: a run where some but not all segments fail,
concatenation succeeds, the probe succeeds and the mux invocation fails is
non-fatal but produces no artifact at all — not an artifact built from the
successful clips as claimed. -/
theorem C6_counterexample :
    ((process_segments [false, true] 0).2 ≠ [] ∧
        (process_segments [false, true] 0).2.length ≠ [false, true].length) ∧
      create_edited_video [false, true] .ok true true (.fail false) =
        .completed none := by
  exact ⟨by decide, by decide⟩

/-- Claim C6, amended: a run is fatal iff all (≥ 1) segments failed, or the
concatenated video-only file is missing exactly when the code must move or
fall back to it (no audio supplied, or the audio probe raised); extraction
failure of one segment never aborts the remaining ones; when concatenation
succeeded, a non-all-failed run emits the successful clips in original
order whenever no audio is supplied or the probe raised (fallback), and
their mux with the audio when probe and mux succeed. -/
theorem C6_fatal_characterization (segOk : List Bool) (concat_out : FfOutcome)
    (audio_file probe_ok : Bool) (mux_out : FfOutcome) :
    (create_edited_video segOk concat_out audio_file probe_ok mux_out = .fatal ↔
      (((process_segments segOk 0).2 ≠ [] ∧
          (process_segments segOk 0).2.length = segOk.length) ∨
        (¬((process_segments segOk 0).2 ≠ [] ∧
            (process_segments segOk 0).2.length = segOk.length) ∧
          ffWrites concat_out = false ∧
          (audio_file = false ∨ probe_ok = false)))) ∧
      ((process_segments segOk 0).1.length + (process_segments segOk 0).2.length =
        segOk.length) ∧
      (concat_out = .ok →
        ¬((process_segments segOk 0).2 ≠ [] ∧
          (process_segments segOk 0).2.length = segOk.length) →
        (audio_file = false ∨ probe_ok = false) →
        create_edited_video segOk concat_out audio_file probe_ok mux_out =
          .completed (some (.videoOnly (process_segments segOk 0).1))) ∧
      (concat_out = .ok →
        ¬((process_segments segOk 0).2 ≠ [] ∧
          (process_segments segOk 0).2.length = segOk.length) →
        audio_file = true → probe_ok = true → mux_out = .ok →
        create_edited_video segOk concat_out audio_file probe_ok mux_out =
          .completed (some (.muxed (process_segments segOk 0).1))) := by
  refine ⟨?_, process_segments_length segOk 0, ?_, ?_⟩
  · by_cases hall : (process_segments segOk 0).2 ≠ [] ∧
        (process_segments segOk 0).2.length = segOk.length
    · unfold create_edited_video
      rw [if_pos hall]
      simp [hall]
    · unfold create_edited_video
      rw [if_neg hall]
      cases audio_file with
      | false =>
        cases concat_out with
        | ok => simp [ffWrites, hall]
        | fail leftover => cases leftover <;> simp [ffWrites, hall]
        | timeout => simp [ffWrites, hall]
      | true =>
        cases probe_ok with
        | false =>
          cases concat_out with
          | ok => simp [ffWrites, hall]
          | fail leftover => cases leftover <;> simp [ffWrites, hall]
          | timeout => simp [ffWrites, hall]
        | true =>
          simp only [if_true]
          constructor
          · intro hcon
            exact absurd hcon (fun hc => RunResult.noConfusion hc)
          · rintro (hc | ⟨_, _, hc | hc⟩)
            · exact absurd hc hall
            · cases hc
            · cases hc
  · intro hco hall haud
    subst hco
    unfold create_edited_video
    rw [if_neg hall]
    rcases haud with ha | hp
    · subst ha; rfl
    · cases audio_file with
      | false => rfl
      | true => subst hp; rfl
  · intro hco hall ha hp hm
    subst hco; subst ha; subst hp; subst hm
    unfold create_edited_video
    rw [if_neg hall]
    rfl

/-- Witness for C6's amended theorem at a concrete partial-failure run. -/
theorem C6_fatal_characterization_witness :
    create_edited_video [false, true] .ok false true .ok =
      .completed (some (.videoOnly (process_segments [false, true] 0).1)) :=
  (C6_fatal_characterization [false, true] .ok false true .ok).2.2.1 rfl
    (by decide) (Or.inl rfl)
